import Mathlib

/-!
Verification of the chunked summarizer in
`backend/app/services/summarization_service.py` (repository SummarAI).

The generation collaborator (the pretrained BART model: tokenize, beam
search, decode) is a black box; we model it as an abstract function
`Generator.run : String → Nat → Nat → String` together with an abstract
wall-clock oracle `Generator.elapsed` for the measured generation time.
Everything the Python service computes around that collaborator
(word counting via `str.split()`, chunking, joining with `" ".join`,
compression ratio with guarded and rounded division, the two-branch
direct/chunk-then-reduce policy, and `create_summary`'s validation)
is embedded faithfully below.  Python floats are modelled as exact
rationals; `round(x, k)` is modelled as exact rational rounding to
`k` decimal places (tie-breaking differences between Python's
round-half-even and `round` on `ℚ` never arise in the theorems).
-/

namespace SummarAI

/-- Accumulator pass behind `pyWordsL`: `acc` holds the characters of the
word currently being read, in reverse order.  Mirrors CPython's
`str.split()` with no separator argument: maximal runs of
non-whitespace characters become the words, all whitespace is
discarded, and no empty words are produced. -/
def wordsAux : List Char → List Char → List (List Char)
  | acc, [] => if acc = [] then [] else [acc.reverse]
  | acc, c :: cs =>
    if c.isWhitespace then
      if acc = [] then wordsAux [] cs else acc.reverse :: wordsAux [] cs
    else wordsAux (c :: acc) cs

/-- Python `text.split()` at the character-list level. -/
def pyWordsL (cs : List Char) : List (List Char) :=
  wordsAux [] cs

/-- Python `text.split()`: the whitespace-delimited words of a string. -/
def pyWords (s : String) : List String :=
  (pyWordsL s.data).map fun w => String.mk w

/-- `len(text.split())`, the word count used by the service. -/
def wordCount (s : String) : Nat :=
  (pyWords s).length

/-- Python `" ".join(ws)`: interleave a single space between the parts. -/
def joinSp (ws : List String) : String :=
  String.mk (List.intercalate [' '] (ws.map String.data))

/-- Fuel-driven core of `chunkList`.  One fuel unit is spent per chunk;
`chunkList` supplies `l.length` fuel, which suffices whenever the
chunk size is positive. -/
def chunkListGo (n : Nat) : Nat → List α → List (List α)
  | _, [] => []
  | 0, _ => []
  | fuel + 1, l => l.take n :: chunkListGo n fuel (l.drop n)

/-- The loop `for i in range(0, len(words), n): chunks.append(words[i:i+n])`
of `chunk_text`, at the level of the word list.  (Python raises
`ValueError` when `n = 0`; all call sites in the source pass `800` or the
default `1000`, and every theorem below assumes `0 < n`.) -/
def chunkList (l : List α) (n : Nat) : List (List α) :=
  chunkListGo n l.length l

/-- `chunk_text(text, max_chunk_size)` from the source: split the text into
words, group the words into consecutive blocks of `max_chunk_size`, and
rejoin each block with single spaces. -/
def chunk_text (text : String) (max_chunk_size : Nat := 1000) : List String :=
  (chunkList (pyWords text) max_chunk_size).map joinSp

/-- The external generation collaborator together with the wall-clock
oracle: `run text max_length min_length` is the decoded model output and
`elapsed text max_length min_length` the measured generation time in
seconds for that call. -/
structure Generator where
  run : String → Nat → Nat → String
  elapsed : String → Nat → Nat → ℚ

/-- Python `round(q, 3)` on the exact rational value. -/
def round3 (q : ℚ) : ℚ :=
  (round (q * 1000) : ℤ) / 1000

/-- Python `round(q, 2)` on the exact rational value. -/
def round2 (q : ℚ) : ℚ :=
  (round (q * 100) : ℤ) / 100

/-- The dictionary returned by `generate_summary`. -/
structure SummaryOut where
  summary_text : String
  generation_time : ℚ
  original_length : Nat
  summary_length : Nat
  compression_ratio : ℚ
deriving Repr, DecidableEq

/-- `generate_summary(text, max_length, min_length)` from the source: invoke
the collaborator, then annotate its output with the elapsed time, the
input and output word counts, and the guarded, rounded compression
ratio. -/
def generate_summary (g : Generator) (text : String)
    (max_length : Nat := 400) (min_length : Nat := 150) : SummaryOut :=
  let summary_text := g.run text max_length min_length
  let original_words := (pyWords text).length
  let summary_words := (pyWords summary_text).length
  let compression_ratio : ℚ :=
    if 0 < original_words then (summary_words : ℚ) / (original_words : ℚ) else 0
  { summary_text := summary_text
    generation_time := round2 (g.elapsed text max_length min_length)
    original_length := original_words
    summary_length := summary_words
    compression_ratio := round3 compression_ratio }

/-- One call into the generation collaborator: the text and the two length
bounds passed to `generate_summary`. -/
structure GenCall where
  text : String
  max_length : Nat
  min_length : Nat
deriving Repr, DecidableEq

/-- `summarize_long_text(text, max_length, min_length)` from the source,
instrumented with the ordered trace of generation calls it performs.
Word count at most 1000: one direct call.  Otherwise: chunk into
800-word chunks, summarize each chunk with the fixed bounds `(200, 80)`,
join the chunk summaries with single spaces, and make one final call on
the joined text with the caller's bounds. -/
def summarize_long_text (g : Generator) (text : String)
    (max_length : Nat := 400) (min_length : Nat := 150) :
    SummaryOut × List GenCall :=
  let word_count := (pyWords text).length
  if word_count ≤ 1000 then
    (generate_summary g text max_length min_length,
     [⟨text, max_length, min_length⟩])
  else
    let chunks := chunk_text text 800
    let chunk_summaries :=
      chunks.map fun chunk => (generate_summary g chunk 200 80).summary_text
    let combined_summary := joinSp chunk_summaries
    let final_result := generate_summary g combined_summary max_length min_length
    (final_result,
     (chunks.map fun chunk => ⟨chunk, 200, 80⟩) ++
       [⟨combined_summary, max_length, min_length⟩])

/-- The columns of the `documents` table that `create_summary` reads.
`extracted_text` is nullable in the schema, hence an `Option`. -/
structure Document where
  id : Nat
  owner_id : Nat
  extracted_text : Option String
deriving Repr, DecidableEq

/-- The `Summary` row built and inserted by `create_summary`. -/
structure SummaryRow where
  document_id : Nat
  owner_id : Nat
  summary_text : String
  word_count : Nat
  compression_ratio : ℚ
  generation_time : ℚ
  max_length : Nat
  min_length : Nat
deriving Repr, DecidableEq

/-- The slice of the database that `create_summary` touches: the documents
it queries and the summaries it inserts into. -/
structure Db where
  documents : List Document
  summaries : List SummaryRow
deriving Repr, DecidableEq

/-- A raised `HTTPException`: status code and detail message. -/
structure HTTPError where
  status_code : Nat
  detail : String
deriving Repr, DecidableEq

/-- Python truthiness of the nullable `extracted_text` column: `None` and
the empty string are falsy, every other string is truthy.  Mirrors
`if not document.extracted_text`. -/
def pyFalsy : Option String → Bool
  | none => true
  | some s => s = ""

/-- `create_summary(db, document_id, user_id, max_length, min_length)` from
the source, instrumented with the generation-call trace and returning
the resulting database state.  Validation order as in the source: the
document is looked up first (404 if absent), then ownership is checked
(403), then non-emptiness of the extracted text (400); only then is
`summarize_long_text` invoked and a `Summary` row appended and
committed. -/
def create_summary (g : Generator) (db : Db) (document_id user_id : Nat)
    (max_length : Nat := 150) (min_length : Nat := 50) :
    Except HTTPError SummaryRow × Db × List GenCall :=
  match db.documents.find? fun d => d.id = document_id with
  | none => (.error ⟨404, "Document not found"⟩, db, [])
  | some document =>
    if document.owner_id ≠ user_id then
      (.error ⟨403, "Access denied"⟩, db, [])
    else if pyFalsy document.extracted_text then
      (.error ⟨400, "Document has no extracted text"⟩, db, [])
    else
      let text := document.extracted_text.getD ""
      let rc := summarize_long_text g text max_length min_length
      let summary : SummaryRow :=
        { document_id := document_id
          owner_id := user_id
          summary_text := rc.1.summary_text
          word_count := rc.1.summary_length
          compression_ratio := rc.1.compression_ratio
          generation_time := rc.1.generation_time
          max_length := max_length
          min_length := min_length }
      (.ok summary, { db with summaries := db.summaries ++ [summary] }, rc.2)

/-- The field constraints of the Pydantic request schema `SummaryCreate`:
`max_length` ranges over `[100, 1024]` and `min_length` over `[50, 400]`.
No constraint relates the two fields to each other. -/
def summaryCreateValid (max_length min_length : Nat) : Prop :=
  100 ≤ max_length ∧ max_length ≤ 1024 ∧ 50 ≤ min_length ∧ min_length ≤ 400

instance (m n : Nat) : Decidable (summaryCreateValid m n) := by
  unfold summaryCreateValid; infer_instance

/-- A Python word, as produced by `str.split()`: a nonempty run of
non-whitespace characters. -/
def IsWord (w : List Char) : Prop :=
  w ≠ [] ∧ ∀ c ∈ w, ¬ c.isWhitespace

/-- A concrete generation collaborator for instantiating the theorems: it
always answers with the one-word summary `"s"`, in zero time. -/
def genK : Generator :=
  ⟨fun _ _ _ => "s", fun _ _ _ => 0⟩

/-- A concrete generation collaborator whose every answer is 2000 words
long, used to instantiate the no-re-chunking theorem: even when the
combined chunk summaries far exceed the 1000-word threshold they are
never re-chunked. -/
def genBig : Generator :=
  ⟨fun _ _ _ => joinSp (List.replicate 2000 "w"), fun _ _ _ => 0⟩

/-! ### Lemmas about the word splitter -/

theorem wordsAux_append_no_ws (w : List Char) (hw : ∀ c ∈ w, ¬ c.isWhitespace) :
    ∀ acc rest, wordsAux acc (w ++ rest) = wordsAux (w.reverse ++ acc) rest := by
  induction w with
  | nil => intro acc rest; simp
  | cons c w ih =>
    intro acc rest
    have hc : ¬ c.isWhitespace := hw c (List.mem_cons_self c w)
    have hw' : ∀ d ∈ w, ¬ d.isWhitespace := fun d hd => hw d (List.mem_cons_of_mem c hd)
    rw [List.cons_append]
    show (if c.isWhitespace then _ else wordsAux (c :: acc) (w ++ rest)) = _
    rw [if_neg hc, ih hw' (c :: acc) rest]
    simp [List.append_assoc]

theorem wordsAux_nil_of_ne (acc : List Char) (h : acc ≠ []) :
    wordsAux acc [] = [acc.reverse] := by
  simp [wordsAux, h]

theorem wordsAux_ws_cons (acc : List Char) (h : acc ≠ []) (c : Char)
    (hc : c.isWhitespace) (rest : List Char) :
    wordsAux acc (c :: rest) = acc.reverse :: wordsAux [] rest := by
  simp [wordsAux, hc, h]

/-- Round trip: re-splitting a single-space join of words gives back exactly
those words.  This is the heart of the losslessness of `chunk_text`. -/
theorem pyWordsL_intercalate (ws : List (List Char)) (h : ∀ w ∈ ws, IsWord w) :
    pyWordsL (List.intercalate [' '] ws) = ws := by
  induction ws with
  | nil => simp [pyWordsL, wordsAux, List.intercalate]
  | cons w ws ih =>
    obtain ⟨hne, hnw⟩ := h w (List.mem_cons_self w ws)
    cases ws with
    | nil =>
      rw [show List.intercalate [' '] [w] = w by simp [List.intercalate]]
      unfold pyWordsL
      rw [show w = w ++ ([] : List Char) by simp, wordsAux_append_no_ws w hnw [] []]
      rw [List.append_nil, wordsAux_nil_of_ne _ (by simp [hne])]
      simp
    | cons y t =>
      rw [show List.intercalate [' '] (w :: y :: t)
            = w ++ (' ' :: List.intercalate [' '] (y :: t)) by
          simp [List.intercalate, List.append_assoc]]
      unfold pyWordsL
      rw [wordsAux_append_no_ws w hnw [] _, List.append_nil]
      rw [wordsAux_ws_cons _ (by simp [hne]) ' ' (by decide) _]
      rw [List.reverse_reverse]
      exact congrArg (w :: ·) (ih fun v hv => h v (List.mem_cons_of_mem w hv))

theorem wordsAux_mem_isWord :
    ∀ (cs acc : List Char), (∀ c ∈ acc, ¬ c.isWhitespace) →
      ∀ w ∈ wordsAux acc cs, IsWord w := by
  intro cs
  induction cs with
  | nil =>
    intro acc hacc w hw
    by_cases h : acc = []
    · simp [wordsAux, h] at hw
    · rw [wordsAux_nil_of_ne acc h] at hw
      simp only [List.mem_singleton] at hw
      subst hw
      exact ⟨by simp [h], fun c hc => hacc c (List.mem_reverse.mp hc)⟩
  | cons c cs ih =>
    intro acc hacc w hw
    by_cases hc : c.isWhitespace
    · by_cases h : acc = []
      · subst h
        simp only [wordsAux, hc, if_true, if_pos rfl] at hw
        exact ih [] (by simp) w hw
      · rw [wordsAux_ws_cons acc h c hc cs] at hw
        rcases List.mem_cons.mp hw with h1 | h1
        · subst h1
          exact ⟨by simp [h], fun d hd => hacc d (List.mem_reverse.mp hd)⟩
        · exact ih [] (by simp) w h1
    · have : wordsAux acc (c :: cs) = wordsAux (c :: acc) cs := by
        simp [wordsAux, hc]
      rw [this] at hw
      refine ih (c :: acc) ?_ w hw
      intro d hd
      rcases List.mem_cons.mp hd with h1 | h1
      · subst h1; exact hc
      · exact hacc d h1

theorem pyWordsL_isWord (cs : List Char) : ∀ w ∈ pyWordsL cs, IsWord w :=
  wordsAux_mem_isWord cs [] (by simp)

theorem string_mk_data (s : String) : String.mk s.data = s := rfl

theorem pyWords_isWord (s : String) : ∀ w ∈ pyWords s, IsWord w.data := by
  intro w hw
  obtain ⟨w', hw', rfl⟩ := List.mem_map.mp hw
  exact pyWordsL_isWord s.data w' hw'

/-- Round trip at the `String` level: `pyWords (joinSp ws) = ws` whenever
every element of `ws` is a genuine word. -/
theorem pyWords_joinSp (ws : List String) (h : ∀ w ∈ ws, IsWord w.data) :
    pyWords (joinSp ws) = ws := by
  unfold pyWords joinSp
  rw [show (String.mk (List.intercalate [' '] (ws.map String.data))).data
        = List.intercalate [' '] (ws.map String.data) from rfl]
  rw [pyWordsL_intercalate _ (by
    intro w hw
    obtain ⟨w', hw', rfl⟩ := List.mem_map.mp hw
    exact h w' hw')]
  rw [List.map_map]
  have hid : ((fun w => String.mk w) ∘ String.data) = id := funext fun s => rfl
  rw [hid, List.map_id]

/-! ### Lemmas about the chunking loop -/

theorem chunkListGo_flatten {α : Type} (n : Nat) (hn : 0 < n) :
    ∀ (fuel : Nat) (l : List α), l.length ≤ fuel →
      (chunkListGo n fuel l).flatten = l := by
  intro fuel
  induction fuel with
  | zero =>
    intro l hl
    have : l = [] := List.eq_nil_of_length_eq_zero (Nat.le_zero.mp hl)
    subst this; rfl
  | succ fuel ih =>
    intro l hl
    cases l with
    | nil => rfl
    | cons a t =>
      have hdrop : (List.drop n (a :: t)).length ≤ fuel := by
        rw [List.length_drop]; simp only [List.length_cons] at hl ⊢; omega
      show (List.take n (a :: t) :: chunkListGo n fuel (List.drop n (a :: t))).flatten
          = a :: t
      rw [List.flatten_cons, ih _ hdrop, List.take_append_drop]

theorem chunkListGo_mem_length {α : Type} (n : Nat) :
    ∀ (fuel : Nat) (l : List α), ∀ c ∈ chunkListGo n fuel l, c.length ≤ n := by
  intro fuel
  induction fuel with
  | zero => intro l c hc; cases l <;> simp [chunkListGo] at hc
  | succ fuel ih =>
    intro l c hc
    cases l with
    | nil => simp [chunkListGo] at hc
    | cons a t =>
      rw [show chunkListGo n (fuel + 1) (a :: t)
            = List.take n (a :: t) :: chunkListGo n fuel (List.drop n (a :: t)) from rfl] at hc
      rcases List.mem_cons.mp hc with h | h
      · subst h; exact List.length_take_le n (a :: t)
      · exact ih _ c h

theorem chunkListGo_length {α : Type} (n : Nat) (hn : 0 < n) :
    ∀ (fuel : Nat) (l : List α), l.length ≤ fuel →
      (chunkListGo n fuel l).length = (l.length + n - 1) / n := by
  intro fuel
  induction fuel with
  | zero =>
    intro l hl
    have : l = [] := List.eq_nil_of_length_eq_zero (Nat.le_zero.mp hl)
    subst this
    simp only [chunkListGo, List.length_nil, Nat.zero_add]
    exact (Nat.div_eq_of_lt (by omega)).symm
  | succ fuel ih =>
    intro l hl
    cases l with
    | nil =>
      simp only [chunkListGo, List.length_nil, Nat.zero_add]
      exact (Nat.div_eq_of_lt (by omega)).symm
    | cons a t =>
      have hm : (a :: t).length = t.length + 1 := rfl
      show (List.take n (a :: t) :: chunkListGo n fuel (List.drop n (a :: t))).length = _
      have hdrop : (List.drop n (a :: t)).length ≤ fuel := by
        rw [List.length_drop]; omega
      rw [List.length_cons, ih _ hdrop, List.length_drop]
      rcases Nat.le_total (a :: t).length n with h | h
      · have h1 : (a :: t).length - n = 0 := by omega
        rw [h1, Nat.div_eq_of_lt (show 0 + n - 1 < n by omega)]
        have h3 : (a :: t).length + n - 1 = ((a :: t).length - 1) + n := by omega
        rw [h3, Nat.add_div_right _ hn,
          Nat.div_eq_of_lt (show (a :: t).length - 1 < n by omega)]
      · have h2 : (a :: t).length - n + n - 1 = (a :: t).length - 1 := by omega
        have h3 : (a :: t).length + n - 1 = ((a :: t).length - 1) + n := by omega
        rw [h2, h3, Nat.add_div_right _ hn]

theorem chunkListGo_dropLast_length {α : Type} (n : Nat) (hn : 0 < n) :
    ∀ (fuel : Nat) (l : List α), l.length ≤ fuel →
      ∀ c ∈ (chunkListGo n fuel l).dropLast, c.length = n := by
  intro fuel
  induction fuel with
  | zero =>
    intro l hl c hc
    have : l = [] := List.eq_nil_of_length_eq_zero (Nat.le_zero.mp hl)
    subst this; simp [chunkListGo] at hc
  | succ fuel ih =>
    intro l hl c hc
    cases l with
    | nil => simp [chunkListGo] at hc
    | cons a t =>
      rw [show chunkListGo n (fuel + 1) (a :: t)
            = List.take n (a :: t) :: chunkListGo n fuel (List.drop n (a :: t)) from rfl] at hc
      by_cases hd : List.drop n (a :: t) = []
      · rw [hd, show chunkListGo n fuel ([] : List α) = [] by cases fuel <;> rfl] at hc
        simp at hc
      · have hlen : (List.drop n (a :: t)).length ≤ fuel := by
          rw [List.length_drop]; simp only [List.length_cons] at hl ⊢; omega
        have hfuel : fuel ≠ 0 := by
          intro h; subst h
          exact hd (List.length_eq_zero.mp (Nat.le_zero.mp hlen))
        obtain ⟨f, rfl⟩ := Nat.exists_eq_succ_of_ne_zero hfuel
        obtain ⟨b, t2, hbt⟩ := List.exists_cons_of_ne_nil hd
        have hrest : chunkListGo n (f + 1) (List.drop n (a :: t)) ≠ [] := by
          rw [hbt]
          exact (List.cons_ne_nil _ _ :
            (List.take n (b :: t2) :: chunkListGo n f (List.drop n (b :: t2))) ≠ [])
        rw [List.dropLast_cons_of_ne_nil hrest] at hc
        rcases List.mem_cons.mp hc with h | h
        · subst h
          have hlt : n < (a :: t).length := by
            by_contra hle
            push_neg at hle
            exact hd (List.drop_eq_nil_iff.mpr hle)
          simp only [List.length_take]; omega
        · exact ih _ hlen c h

/-- `chunk_text` splits exactly into the word blocks of `chunkList`: mapping
`pyWords` over the chunks recovers the blocks. -/
theorem map_pyWords_chunk_text (text : String) (n : Nat) (hn : 0 < n) :
    (chunk_text text n).map pyWords = chunkList (pyWords text) n := by
  unfold chunk_text
  rw [List.map_map]
  have hflat : (chunkList (pyWords text) n).flatten = pyWords text :=
    chunkListGo_flatten n hn _ _ le_rfl
  conv_rhs => rw [← List.map_id (chunkList (pyWords text) n)]
  apply List.map_congr_left
  intro b hb
  show pyWords (joinSp b) = b
  apply pyWords_joinSp
  intro w hw
  have hwin : w ∈ pyWords text := by
    rw [← hflat]; exact List.mem_flatten.mpr ⟨b, hb, hw⟩
  exact pyWords_isWord text w hwin

/-! ### Unfolding the two branches of `summarize_long_text` -/

theorem summarize_long_text_short (g : Generator) (text : String)
    (maxL minL : Nat) (h : (pyWords text).length ≤ 1000) :
    summarize_long_text g text maxL minL
      = (generate_summary g text maxL minL, [⟨text, maxL, minL⟩]) := by
  simp only [summarize_long_text]
  rw [if_pos h]

theorem summarize_long_text_long (g : Generator) (text : String)
    (maxL minL : Nat) (h : ¬ (pyWords text).length ≤ 1000) :
    summarize_long_text g text maxL minL
      = (generate_summary g
           (joinSp ((chunk_text text 800).map fun c =>
             (generate_summary g c 200 80).summary_text)) maxL minL,
         ((chunk_text text 800).map fun c => (⟨c, 200, 80⟩ : GenCall)) ++
           [⟨joinSp ((chunk_text text 800).map fun c =>
               (generate_summary g c 200 80).summary_text), maxL, minL⟩]) := by
  simp only [summarize_long_text]
  rw [if_neg h]

/-- The word count of a single-space join of `k` copies of the one-letter
word `"w"` is exactly `k`; this provides arbitrarily long concrete
inputs without kernel-evaluating the splitter on thousands of
characters. -/
theorem wordCount_joinSp_replicate (k : Nat) :
    wordCount (joinSp (List.replicate k "w")) = k := by
  unfold wordCount
  rw [pyWords_joinSp _ ?_]
  · exact List.length_replicate k "w"
  · intro w hw
    rw [List.eq_of_mem_replicate hw]
    exact ⟨by decide, by decide⟩

theorem round_nonneg_of_nonneg (x : ℚ) (h : 0 ≤ x) : 0 ≤ round x := by
  rw [round_eq]
  have h2 : (0 : ℚ) ≤ x + 1 / 2 := by linarith
  exact_mod_cast Int.floor_nonneg.mpr h2

/-! ### The claims -/

/-- C1: for every input text with whitespace-delimited word count strictly
greater than 1000, `summarize_long_text` makes exactly
`ceil(word_count / 800) + 1 = (word_count + 799) / 800 + 1` generation
calls: one per 800-word chunk plus one final reduction. -/
theorem summarize_long_text_call_count (g : Generator) (text : String)
    (max_length min_length : Nat) (h : 1000 < wordCount text) :
    (summarize_long_text g text max_length min_length).2.length
      = (wordCount text + 799) / 800 + 1 := by
  rw [summarize_long_text_long g text max_length min_length
    (by unfold wordCount at h; omega)]
  simp only [List.length_append, List.length_map, List.length_cons, List.length_nil]
  unfold chunk_text chunkList
  rw [List.length_map, chunkListGo_length 800 (by omega) _ _ le_rfl]
  rfl

/-- C1 witness: a concrete 1601-word text takes the long path and produces
exactly `ceil(1601 / 800) + 1 = 4` generation calls. -/
theorem summarize_long_text_call_count_witness :
    1000 < wordCount (joinSp (List.replicate 1601 "w")) ∧
      (summarize_long_text genK (joinSp (List.replicate 1601 "w")) 400 150).2.length
        = 4 := by
  have h : 1000 < wordCount (joinSp (List.replicate 1601 "w")) := by
    rw [wordCount_joinSp_replicate]; omega
  refine ⟨h, ?_⟩
  rw [summarize_long_text_call_count genK _ 400 150 h, wordCount_joinSp_replicate]

/-- C2: `chunk_text` produces ordered, non-overlapping chunks of at most
the given chunk size words each, every chunk but the last holds exactly
the chunk size many words, and concatenating the chunk word sequences in
order reproduces exactly the word sequence of the original text. -/
theorem chunk_text_ordered_lossless (text : String) (n : Nat) (hn : 0 < n) :
    ((chunk_text text n).map pyWords).flatten = pyWords text ∧
      (∀ c ∈ chunk_text text n, (pyWords c).length ≤ n) ∧
      ∀ c ∈ (chunk_text text n).dropLast, (pyWords c).length = n := by
  have hmap := map_pyWords_chunk_text text n hn
  refine ⟨?_, ?_, ?_⟩
  · rw [hmap]; exact chunkListGo_flatten n hn _ _ le_rfl
  · intro c hc
    have hb : pyWords c ∈ chunkList (pyWords text) n :=
      hmap ▸ List.mem_map_of_mem pyWords hc
    exact chunkListGo_mem_length n _ _ _ hb
  · intro c hc
    have h1 : pyWords c ∈ List.map pyWords ((chunk_text text n).dropLast) :=
      List.mem_map_of_mem pyWords hc
    rw [List.map_dropLast, hmap] at h1
    exact chunkListGo_dropLast_length n hn _ _ le_rfl _ h1

/-- C2 witness: chunking a concrete three-word text with chunk size 2. -/
theorem chunk_text_ordered_lossless_witness :
    0 < 2 ∧
      ((((chunk_text "alpha beta gamma" 2).map pyWords).flatten
          = pyWords "alpha beta gamma") ∧
        (∀ c ∈ chunk_text "alpha beta gamma" 2, (pyWords c).length ≤ 2) ∧
        ∀ c ∈ (chunk_text "alpha beta gamma" 2).dropLast, (pyWords c).length = 2) :=
  ⟨by decide, chunk_text_ordered_lossless "alpha beta gamma" 2 (by decide)⟩

/-- C3: on the long-document path, the generation calls are exactly the
chunks in chunk order with the fixed targets `(200, 80)`, followed by
one final call on the single-space concatenation of the chunk summaries
with the caller's original bounds, whose result is returned. -/
theorem summarize_long_text_long_path (g : Generator) (text : String)
    (max_length min_length : Nat) (h : 1000 < wordCount text) :
    (summarize_long_text g text max_length min_length).2
        = ((chunk_text text 800).map fun c => (⟨c, 200, 80⟩ : GenCall)) ++
            [⟨joinSp ((chunk_text text 800).map fun c =>
                (generate_summary g c 200 80).summary_text),
              max_length, min_length⟩] ∧
      (summarize_long_text g text max_length min_length).1
        = generate_summary g
            (joinSp ((chunk_text text 800).map fun c =>
              (generate_summary g c 200 80).summary_text))
            max_length min_length := by
  rw [summarize_long_text_long g text max_length min_length
    (by unfold wordCount at h; omega)]
  exact ⟨rfl, rfl⟩

/-- C3 witness: the long path at a concrete 1601-word input. -/
theorem summarize_long_text_long_path_witness :
    1000 < wordCount (joinSp (List.replicate 1601 "v")) ∧
      (summarize_long_text genK (joinSp (List.replicate 1601 "v")) 400 150).2
          = ((chunk_text (joinSp (List.replicate 1601 "v")) 800).map
              fun c => (⟨c, 200, 80⟩ : GenCall)) ++
              [⟨joinSp (((chunk_text (joinSp (List.replicate 1601 "v")) 800)).map
                  fun c => (generate_summary genK c 200 80).summary_text),
                400, 150⟩] := by
  have h : 1000 < wordCount (joinSp (List.replicate 1601 "v")) := by
    unfold wordCount
    rw [pyWords_joinSp _ ?_]
    · rw [List.length_replicate]; omega
    · intro w hw
      rw [List.eq_of_mem_replicate hw]
      exact ⟨by decide, by decide⟩
  exact ⟨h, (summarize_long_text_long_path genK _ 400 150 h).1⟩

/-- C4: for every input text with word count at most 1000,
`summarize_long_text` makes exactly one generation call, with the
caller's text and bounds unchanged, and returns that call's result —
the summary annotated with the (rounded) elapsed time and the (rounded,
guarded) compression ratio. -/
theorem summarize_long_text_direct (g : Generator) (text : String)
    (max_length min_length : Nat) (h : wordCount text ≤ 1000) :
    summarize_long_text g text max_length min_length
        = (generate_summary g text max_length min_length,
           [⟨text, max_length, min_length⟩]) ∧
      (summarize_long_text g text max_length min_length).1.generation_time
        = round2 (g.elapsed text max_length min_length) ∧
      (summarize_long_text g text max_length min_length).1.compression_ratio
        = round3 (if 0 < (pyWords text).length
            then ((pyWords (g.run text max_length min_length)).length : ℚ)
                / ((pyWords text).length : ℚ)
            else 0) := by
  have he := summarize_long_text_short g text max_length min_length h
  refine ⟨he, ?_, ?_⟩ <;> rw [he]
  · rfl
  · rfl

/-- C4 witness: the direct path at a concrete two-word input. -/
theorem summarize_long_text_direct_witness :
    wordCount "hello world" ≤ 1000 ∧
      summarize_long_text genK "hello world" 400 150
        = (generate_summary genK "hello world" 400 150,
           [⟨"hello world", 400, 150⟩]) := by
  have h : wordCount "hello world" ≤ 1000 := by decide
  exact ⟨h, (summarize_long_text_direct genK "hello world" 400 150 h).1⟩

/-- C5 counterexample: the claimed `EmptyInput` rejection does not exist.
`summarize_long_text("", 100, 10)` is not rejected — it performs one
generation call — and `create_summary` forwards a whitespace-only
document (which is truthy in Python) straight to the generator. -/
theorem no_empty_input_rejection :
    (summarize_long_text genK "" 100 10).2.length = 1 ∧
      (create_summary genK ⟨[⟨1, 7, some " "⟩], []⟩ 1 7 150 50).2.2.length = 1 :=
  ⟨rfl, rfl⟩

/-- C5 amended: no `EmptyInput` failure kind exists.  Text with word count 0
(empty or whitespace-only) takes the direct path of
`summarize_long_text` with exactly one generation call; only
`create_summary` rejects, only for a document whose `extracted_text` is
`None` or the empty string (HTTP 400, before any generation call and
leaving the database unchanged) — whitespace-only text passes that
check. -/
theorem empty_input_handling (g : Generator) (text : String)
    (max_length min_length : Nat) (h : wordCount text = 0)
    (db : Db) (did uid : Nat) (d : Document)
    (hfind : db.documents.find? (fun x => x.id = did) = some d)
    (howner : d.owner_id = uid)
    (hempty : pyFalsy d.extracted_text = true) :
    (summarize_long_text g text max_length min_length).2
        = [⟨text, max_length, min_length⟩] ∧
      create_summary g db did uid max_length min_length
        = (.error ⟨400, "Document has no extracted text"⟩, db, []) := by
  constructor
  · rw [summarize_long_text_short g text max_length min_length
      (by unfold wordCount at h; omega)]
  · simp only [create_summary, hfind]
    rw [if_neg (fun hne => hne howner), if_pos hempty]

/-- C5 witness: the amended behaviour at the whitespace-only text `" "` and
at a document whose extracted text is the empty string. -/
theorem empty_input_handling_witness :
    wordCount " " = 0 ∧
      ((summarize_long_text genK " " 100 10).2 = [⟨" ", 100, 10⟩] ∧
        create_summary genK ⟨[⟨1, 7, some ""⟩], []⟩ 1 7 100 10
          = (.error ⟨400, "Document has no extracted text"⟩,
             ⟨[⟨1, 7, some ""⟩], []⟩, [])) := by
  have h : wordCount " " = 0 := rfl
  exact ⟨h, empty_input_handling genK " " 100 10 h
    ⟨[⟨1, 7, some ""⟩], []⟩ 1 7 ⟨1, 7, some ""⟩ rfl rfl rfl⟩

/-- C6 counterexample: the claimed `InvalidLengthBounds` rejection does not
exist.  The request schema accepts `max_length = 100, min_length = 400`
(its two range checks are independent), and `summarize_long_text` with
`min_length > max_length` performs its generation call with those very
bounds instead of rejecting. -/
theorem no_length_bounds_rejection :
    summaryCreateValid 100 400 ∧
      (summarize_long_text genK "hi" 50 100).2 = [⟨"hi", 50, 100⟩] :=
  ⟨by decide, rfl⟩

/-- C6 amended: no `min_length < max_length` validation exists anywhere:
the schema only constrains `max_length ∈ [100, 1024]` and
`min_length ∈ [50, 400]` separately, and `summarize_long_text` forwards
the caller's bounds unchecked to the generator even when
`max_length ≤ min_length`. -/
theorem no_min_max_validation (g : Generator) (text : String)
    (max_length min_length : Nat) (hwc : wordCount text ≤ 1000)
    (hle : max_length ≤ min_length) :
    (summarize_long_text g text max_length min_length).2
      = [⟨text, max_length, min_length⟩] := by
  rw [summarize_long_text_short g text max_length min_length
    (by unfold wordCount at hwc; omega)]

/-- C6 witness: a request with `max_length = 50, min_length = 100` reaches
the generator unrejected. -/
theorem no_min_max_validation_witness :
    wordCount "hi" ≤ 1000 ∧ 50 ≤ 100 ∧
      (summarize_long_text genK "hi" 50 100).2 = [⟨"hi", 50, 100⟩] :=
  ⟨by decide, by decide, no_min_max_validation genK "hi" 50 100 (by decide) (by decide)⟩

/-- C7 counterexample: the returned compression ratio is the exact ratio
rounded to three decimal places, not the exact ratio: with a one-word
summary of a three-word input the result is `0.333 ≠ 1/3`. -/
theorem compression_ratio_rounding_counterexample :
    (generate_summary genK "a b c" 400 150).summary_length = 1 ∧
      (generate_summary genK "a b c" 400 150).original_length = 3 ∧
      (generate_summary genK "a b c" 400 150).compression_ratio = 333 / 1000 ∧
      (generate_summary genK "a b c" 400 150).compression_ratio ≠ (1 : ℚ) / 3 := by
  have h3 : (generate_summary genK "a b c" 400 150).compression_ratio
      = round3 (((1 : Nat) : ℚ) / ((3 : Nat) : ℚ)) := rfl
  refine ⟨rfl, rfl, ?_, ?_⟩ <;> rw [h3] <;> norm_num [round3, round_eq]

/-- C7 amended: `compression_ratio` is always defined and non-negative —
the division is guarded, giving 0 for a zero input word count — and for
a positive input word count it equals the exact ratio
`output_words / input_words` rounded to three decimal places (the
rounding is the one deviation from the claim); word counting itself is
total, so no length computation can fail. -/
theorem compression_ratio_guarded (g : Generator) (text : String)
    (max_length min_length : Nat) :
    0 ≤ (generate_summary g text max_length min_length).compression_ratio ∧
      ((pyWords text).length = 0 →
        (generate_summary g text max_length min_length).compression_ratio = 0) ∧
      (0 < (pyWords text).length →
        (generate_summary g text max_length min_length).compression_ratio
          = round3 (((pyWords (g.run text max_length min_length)).length : ℚ)
              / ((pyWords text).length : ℚ))) := by
  have hcr : (generate_summary g text max_length min_length).compression_ratio
      = round3 (if 0 < (pyWords text).length
          then ((pyWords (g.run text max_length min_length)).length : ℚ)
              / ((pyWords text).length : ℚ)
          else 0) := rfl
  have hq : 0 ≤ (if 0 < (pyWords text).length
      then ((pyWords (g.run text max_length min_length)).length : ℚ)
          / ((pyWords text).length : ℚ)
      else 0) := by
    split
    · positivity
    · exact le_refl 0
  refine ⟨?_, ?_, ?_⟩
  · rw [hcr]
    unfold round3
    apply div_nonneg _ (by norm_num)
    exact_mod_cast round_nonneg_of_nonneg _ (by
      have := mul_nonneg hq (show (0 : ℚ) ≤ 1000 by norm_num)
      linarith)
  · intro h0
    rw [hcr, if_neg (by omega)]
    simp [round3]
  · intro hpos
    rw [hcr, if_pos hpos]

/-- C7 witness: the guarded ratio at an empty input is 0 and non-negative. -/
theorem compression_ratio_guarded_witness :
    0 ≤ (generate_summary genK "" 400 150).compression_ratio ∧
      (generate_summary genK "" 400 150).compression_ratio = 0 :=
  ⟨(compression_ratio_guarded genK "" 400 150).1,
   (compression_ratio_guarded genK "" 400 150).2.1 rfl⟩

/-- C8: `summarize_long_text` always terminates with the reduction step
applied at most once: on the long path, whatever the generation
collaborator returns (for any `g`, however long its outputs), the trace
is the chunk calls followed by exactly one final call whose input is the
combined chunk-summary text, and the result is that single direct
`generate_summary` call — the combined text is never re-chunked or fed
back into `summarize_long_text`. -/
theorem reduction_applied_once (g : Generator) (text : String)
    (max_length min_length : Nat) (h : 1000 < wordCount text) :
    (summarize_long_text g text max_length min_length).2.length
        = (chunk_text text 800).length + 1 ∧
      (summarize_long_text g text max_length min_length).2.getLast?
        = some ⟨joinSp ((chunk_text text 800).map fun c =>
            (generate_summary g c 200 80).summary_text),
            max_length, min_length⟩ ∧
      (summarize_long_text g text max_length min_length).1
        = generate_summary g
            (joinSp ((chunk_text text 800).map fun c =>
              (generate_summary g c 200 80).summary_text))
            max_length min_length := by
  rw [summarize_long_text_long g text max_length min_length
    (by unfold wordCount at h; omega)]
  refine ⟨by simp, by simp, rfl⟩

/-- C8 witness: a 1001-word input under a collaborator whose every answer
is 2000 words long still yields exactly `2 + 1 = 3` generation calls —
the oversized combined summary is not re-chunked. -/
theorem reduction_applied_once_witness :
    1000 < wordCount (joinSp (List.replicate 1001 "w")) ∧
      (summarize_long_text genBig (joinSp (List.replicate 1001 "w")) 400 150).2.length
        = 3 := by
  have h : 1000 < wordCount (joinSp (List.replicate 1001 "w")) := by
    rw [wordCount_joinSp_replicate]; omega
  refine ⟨h, ?_⟩
  rw [(reduction_applied_once genBig _ 400 150 h).1]
  have h2 : (pyWords (joinSp (List.replicate 1001 "w"))).length = 1001 :=
    wordCount_joinSp_replicate 1001
  unfold chunk_text chunkList
  rw [List.length_map, chunkListGo_length 800 (by omega) _ _ le_rfl, h2]

/-- C9: each of `create_summary`'s validation failures — unknown document
(404), foreign owner (403), empty extracted text (400) — is raised
before any generation call (the call trace is empty) and leaves the
database unchanged: no `Summary` row is added. -/
theorem create_summary_validation (g : Generator) (db : Db)
    (did uid max_length min_length : Nat) (d : Document) :
    (db.documents.find? (fun x => x.id = did) = none →
      create_summary g db did uid max_length min_length
        = (.error ⟨404, "Document not found"⟩, db, [])) ∧
      (db.documents.find? (fun x => x.id = did) = some d → d.owner_id ≠ uid →
        create_summary g db did uid max_length min_length
          = (.error ⟨403, "Access denied"⟩, db, [])) ∧
      (db.documents.find? (fun x => x.id = did) = some d → d.owner_id = uid →
        pyFalsy d.extracted_text = true →
        create_summary g db did uid max_length min_length
          = (.error ⟨400, "Document has no extracted text"⟩, db, [])) := by
  refine ⟨?_, ?_, ?_⟩
  · intro hf
    simp only [create_summary, hf]
  · intro hf hne
    simp only [create_summary, hf]
    rw [if_pos hne]
  · intro hf he hempty
    simp only [create_summary, hf]
    rw [if_neg (fun hne => hne he), if_pos hempty]

/-- C9 witness: all three rejections at concrete databases, each with an
empty generation trace and an unchanged database. -/
theorem create_summary_validation_witness :
    create_summary genK ⟨[], []⟩ 1 7 150 50
        = (.error ⟨404, "Document not found"⟩, ⟨[], []⟩, []) ∧
      create_summary genK ⟨[⟨1, 2, some "text"⟩], []⟩ 1 7 150 50
        = (.error ⟨403, "Access denied"⟩, ⟨[⟨1, 2, some "text"⟩], []⟩, []) ∧
      create_summary genK ⟨[⟨1, 7, none⟩], []⟩ 1 7 150 50
        = (.error ⟨400, "Document has no extracted text"⟩, ⟨[⟨1, 7, none⟩], []⟩, []) :=
  ⟨(create_summary_validation genK ⟨[], []⟩ 1 7 150 50 ⟨0, 0, none⟩).1 rfl,
   (create_summary_validation genK ⟨[⟨1, 2, some "text"⟩], []⟩ 1 7 150 50
      ⟨1, 2, some "text"⟩).2.1 rfl (by decide),
   (create_summary_validation genK ⟨[⟨1, 7, none⟩], []⟩ 1 7 150 50
      ⟨1, 7, none⟩).2.2 rfl rfl rfl⟩

/-- C10: text with word count 0 (empty or whitespace-only) takes the direct
path — exactly one generation call, on that text — and the returned
compression ratio is 0. -/
theorem zero_word_direct_path (g : Generator) (text : String)
    (max_length min_length : Nat) (h : wordCount text = 0) :
    (summarize_long_text g text max_length min_length).2
        = [⟨text, max_length, min_length⟩] ∧
      (summarize_long_text g text max_length min_length).1.compression_ratio
        = 0 := by
  rw [summarize_long_text_short g text max_length min_length
    (by unfold wordCount at h; omega)]
  refine ⟨rfl, ?_⟩
  have hcr : (generate_summary g text max_length min_length).compression_ratio
      = round3 (if 0 < (pyWords text).length
          then ((pyWords (g.run text max_length min_length)).length : ℚ)
              / ((pyWords text).length : ℚ)
          else 0) := rfl
  show (generate_summary g text max_length min_length).compression_ratio = 0
  rw [hcr, if_neg (by unfold wordCount at h; omega)]
  simp [round3]

/-- C10 witness: the empty text makes one generation call and reports a
compression ratio of 0. -/
theorem zero_word_direct_path_witness :
    wordCount "" = 0 ∧
      ((summarize_long_text genK "" 400 150).2 = [⟨"", 400, 150⟩] ∧
        (summarize_long_text genK "" 400 150).1.compression_ratio = 0) :=
  ⟨rfl, zero_word_direct_path genK "" 400 150 rfl⟩

end SummarAI
